import Mathlib

/-!
todoCLI: a shallow embedding of `todo.go`.

The program is a single Go file that keeps todo items in one SQLite table
and is driven by the process arguments.  The embedding below follows the
source function by function:

* the table `todo` is a list of rows in rowid order together with the
  `sqlite_sequence` counter that `AUTOINCREMENT` maintains;
* every Go function that opens the database becomes a pure function from the
  database before the call to the error it returns, the database afterwards
  and the text it wrote;
* `time.Now()` is an explicit argument, and so is the error (if any) that the
  driver reports when the statement is executed.
-/

namespace TodoCLI

/-! ## Data model -/

/-- One row of table `todo` (`createDatabase`, lines 32-38). -/
structure Row where
  id : Int
  description : String
  completed : Bool
  date_created : String
  date_completed : String
deriving DecidableEq, Repr

/-- The contents of `todo.db`: the rows of table `todo` in rowid order and the
value SQLite keeps in `sqlite_sequence` for an `AUTOINCREMENT` key, the largest
rowid the table has ever held. -/
structure Db where
  rows : List Row
  seq : Int
deriving DecidableEq, Repr

/-- A database file on which `CREATE TABLE IF NOT EXISTS` has just created the
table. -/
def Db.fresh : Db := { rows := [], seq := 0 }

/-- Largest value of Go's 64-bit `int`, which is also SQLite's largest rowid. -/
def maxInt64 : Int := 9223372036854775807

/-- Smallest value of Go's 64-bit `int`. -/
def minInt64 : Int := -9223372036854775808

/-! ## Output -/

/-- One call that writes text: `fmt.Println`, the `fmt.Printf` of `showTodo`
with its five arguments, or `log.Fatal`. -/
inductive Out where
  | println (s : String)
  | printRow (id : Int) (description status date_created date_completed : String)
  | fatal (s : String)
deriving DecidableEq, Repr

/-- The text a call writes to standard output.  `printRow` is the format
`"%d | %s | %s | %s | %s\n"` of line 150; the message of `log.Fatal` goes to
standard error. -/
def Out.render : Out → String
  | .println s => s ++ "\n"
  | .printRow id description status date_created date_completed =>
      toString id ++ " | " ++ description ++ " | " ++ status ++ " | " ++
        date_created ++ " | " ++ date_completed ++ "\n"
  | .fatal _ => ""

/-- What a Go function of the program leaves behind: the `error` it returns
(`none` for `nil`), the database and the calls that wrote text. -/
structure Res where
  err : Option String
  db : Db
  out : List Out
deriving DecidableEq, Repr

/-! ## Time -/

/-- A reading of `time.Now()`: seconds since 1970-01-01T00:00:00Z and the zone
offset in seconds east of UTC. -/
structure Time where
  unix : Int
  offset : Int
deriving DecidableEq, Repr

/-- Go's `isLeap`: whether `year` is a leap year of the Gregorian calendar. -/
def isLeap (year : Int) : Bool :=
  decide (year % 4 = 0 ∧ (year % 100 ≠ 0 ∨ year % 400 = 0))

/-- Go's table `daysBefore`: the number of days of a non-leap year before the
start of month `m + 1`. -/
def daysBefore (m : Int) : Int :=
  if m ≤ 0 then 0 else if m = 1 then 31 else if m = 2 then 59 else if m = 3 then 90
  else if m = 4 then 120 else if m = 5 then 151 else if m = 6 then 181
  else if m = 7 then 212 else if m = 8 then 243 else if m = 9 then 273
  else if m = 10 then 304 else if m = 11 then 334 else 365

/-- First half of Go's `absDate`: the year and the day within the year
(from 0) of the day that lies `days` days after 1970-01-01.  The 400-year
cycles are counted from 0001-01-01 with floor division. -/
def absYearDay (days : Int) : Int × Int :=
  let d := days + 719162
  let n400 := d / 146097
  let d := d - 146097 * n400
  let n100 := d / 36524
  let n100 := n100 - n100 / 4
  let d := d - 36524 * n100
  let n4 := d / 1461
  let d := d - 1461 * n4
  let n1 := d / 365
  let n1 := n1 - n1 / 4
  let d := d - 365 * n1
  (400 * n400 + 100 * n100 + 4 * n4 + n1 + 1, d)

/-- Second half of Go's `absDate`: month and day of the month of day `yday`
(from 0) of a year that is or is not a leap year. -/
def monthDay (leap : Bool) (yday : Int) : Int × Int :=
  if leap ∧ yday = 31 + 29 - 1 then (2, 29)
  else
    let day := if leap ∧ yday > 31 + 29 - 1 then yday - 1 else yday
    let month := day / 31
    let stop := daysBefore (month + 1)
    if day ≥ stop then (month + 2, day - stop + 1)
    else (month + 1, day - daysBefore month + 1)

/-- Year, month and day of the day that lies `days` days after 1970-01-01 in
the proleptic Gregorian calendar (Go's `absDate`). -/
def civilFromDays (days : Int) : Int × Int × Int :=
  let yd := absYearDay days
  let md := monthDay (isLeap yd.1) yd.2
  (yd.1, md.1, md.2)

/-- The decimal digit `'0' + u` (`utod` in Go's `appendInt`). -/
def utod (u : Nat) : Char := Nat.digitChar u

/-- Go's `appendInt(b, x, width)`: the decimal text of `x`, zero-padded to
`width` digits, with a leading `-` for a negative number. -/
def appendInt (x : Int) (width : Nat) : List Char :=
  let u := x.natAbs
  (if x < 0 then ['-'] else []) ++
    (if width = 2 ∧ u < 100 then [utod (u / 10), utod (u % 10)]
     else if width = 4 ∧ u < 10000 then
       [utod (u / 1000), utod (u / 100 % 10), utod (u / 10 % 10), utod (u % 10)]
     else
       let ds := Nat.toDigits 10 u
       List.replicate (width - ds.length) '0' ++ ds)

/-- The zone suffix of layout `Z07:00`: `Z` for offset zero, otherwise the
sign and the offset truncated to minutes as `hh:mm`. -/
def zoneSuffix (offset : Int) : List Char :=
  if offset = 0 then ['Z']
  else
    let zone := Int.tdiv offset 60
    (if zone < 0 then ['-'] else ['+']) ++
      appendInt ((zone.natAbs / 60 : Nat) : Int) 2 ++ [':'] ++
      appendInt ((zone.natAbs % 60 : Nat) : Int) 2

/-- The characters of `t.Format(time.RFC3339)`, layout
`2006-01-02T15:04:05Z07:00`. -/
def rfc3339Chars (t : Time) : List Char :=
  let loc := t.unix + t.offset
  let days := loc / 86400
  let sod := loc % 86400
  let ymd := civilFromDays days
  appendInt ymd.1 4 ++ ['-'] ++ appendInt ymd.2.1 2 ++ ['-'] ++ appendInt ymd.2.2 2 ++
    ['T'] ++ appendInt (sod / 3600) 2 ++ [':'] ++ appendInt (sod % 3600 / 60) 2 ++
    [':'] ++ appendInt (sod % 60) 2 ++ zoneSuffix t.offset

/-- The string `t.Format(time.RFC3339)`. -/
def rfc3339 (t : Time) : String := String.mk (rfc3339Chars t)

/-- Value of a decimal digit; `none` for any other character. -/
def digitVal (c : Char) : Option Int :=
  if '0'.toNat ≤ c.toNat ∧ c.toNat ≤ '9'.toNat then some ((c.toNat : Int) - 48) else none

/-- Value of a field of two digits. -/
def num2 (a b : Char) : Option Int :=
  match digitVal a, digitVal b with
  | some x, some y => some (10 * x + y)
  | _, _ => none

/-- Value of a field of four digits. -/
def num4 (a b c d : Char) : Option Int :=
  match num2 a b, num2 c d with
  | some x, some y => some (100 * x + y)
  | _, _ => none

/-- Number of days of month `m` of year `y`. -/
def daysIn (y m : Int) : Int :=
  daysBefore m - daysBefore (m - 1) + (if isLeap y ∧ m = 2 then 1 else 0)

/-- Days from 1970-01-01 to day `d` of month `m` of year `y`. -/
def daysFromCivil (y m d : Int) : Int :=
  365 * (y - 1) + (y - 1) / 4 - (y - 1) / 100 + (y - 1) / 400 +
    daysBefore (m - 1) + (if isLeap y ∧ m > 2 then 1 else 0) + d - 1 - 719162

/-- The offset in seconds that an RFC 3339 `time-offset` denotes: `Z`, or a
sign, an hour below 24 and a minute below 60. -/
def parseZone : List Char → Option Int
  | [z] => if z = 'Z' then some 0 else none
  | [s, h1, h2, c, m1, m2] =>
    if (s = '+' ∨ s = '-') ∧ c = ':' then
      match num2 h1 h2, num2 m1 m2 with
      | some hh, some mm =>
        if hh < 24 ∧ mm < 60 then
          some (if s = '-' then -(hh * 3600 + mm * 60) else hh * 3600 + mm * 60)
        else none
      | _, _ => none
    else none
  | _ => none

/-- The instant, in seconds since 1970-01-01T00:00:00Z, that an RFC 3339
timestamp denotes; `none` when the text is not a well-formed timestamp.  The
timestamps accepted are those of RFC 3339 section 5.6 written with `T` and `Z`
in upper case, without a fraction of a second and without a leap second: four
digits of year, month 01-12, a day that the month of that year has, hour
00-23, minute and second 00-59, and a time offset. -/
def parseRFC3339 (s : String) : Option Int :=
  match s.data with
  | y1 :: y2 :: y3 :: y4 :: c1 :: m1 :: m2 :: c2 :: d1 :: d2 :: c3 ::
      h1 :: h2 :: c4 :: n1 :: n2 :: c5 :: s1 :: s2 :: zone =>
    if c1 = '-' ∧ c2 = '-' ∧ c3 = 'T' ∧ c4 = ':' ∧ c5 = ':' then
      match num4 y1 y2 y3 y4, num2 m1 m2, num2 d1 d2, num2 h1 h2, num2 n1 n2, num2 s1 s2,
          parseZone zone with
      | some y, some m, some d, some hh, some mm, some ss, some off =>
        if 1 ≤ m ∧ m ≤ 12 ∧ 1 ≤ d ∧ d ≤ daysIn y m ∧ hh < 24 ∧ mm < 60 ∧ ss < 60 then
          some (daysFromCivil y m d * 86400 + hh * 3600 + mm * 60 + ss - off)
        else none
      | _, _, _, _, _, _, _ => none
    else none
  | _ => none

/-- Invariant (I3) of the specification for one row: a completed row has a
well-formed `date_completed` that is not earlier than its `date_created`, and
a row that is not completed has an empty `date_completed`. -/
def i3 (r : Row) : Bool :=
  if r.completed then
    match parseRFC3339 r.date_completed, parseRFC3339 r.date_created with
    | some k, some c => decide (c ≤ k)
    | _, _ => false
  else r.date_completed = ""

/-- A clock reading that `Format` renders as a timestamp of RFC 3339: the
local year is one of 0000-9999 and the zone offset is a whole number of
minutes, less than a day either way. -/
def Time.InRange (t : Time) : Prop :=
  -62167219200 ≤ t.unix + t.offset ∧ t.unix + t.offset < 253402300800 ∧
  -86400 < t.offset ∧ t.offset < 86400 ∧ t.offset % 60 = 0

instance (t : Time) : Decidable t.InRange := by
  unfold Time.InRange
  infer_instance

/-! ## Store -/

/-- The rowid an `INSERT` into a table with an `AUTOINCREMENT` key receives:
one more than the largest rowid the table holds or has ever held. -/
def nextId (db : Db) : Int :=
  db.rows.foldr (fun r m => max r.id m) db.seq + 1

/-- The statement `INSERT INTO todo (...) VALUES (?, ?, ?, ?)`.  When the largest
rowid has been used SQLite refuses the insert (`SQLITE_FULL`). -/
def insert (description : String) (completed : Bool) (date_created date_completed : String)
    (db : Db) : Except String Db :=
  let id := nextId db
  if id > maxInt64 then .error "database or disk is full"
  else .ok { rows := db.rows ++ [⟨id, description, completed, date_created, date_completed⟩],
             seq := id }

/-- The statement `DELETE FROM todo WHERE id = ?`: the database afterwards and
the number of rows affected. -/
def deleteWhere (id : Int) (db : Db) : Db × Nat :=
  ({ db with rows := db.rows.filter (fun r => r.id ≠ id) },
   (db.rows.filter (fun r => r.id = id)).length)

/-- The statement
`UPDATE todo SET completed = true, date_completed = ? WHERE id = ?`. -/
def updateCompletion (dateCompleted : String) (id : Int) (db : Db) : Db × Nat :=
  ({ db with rows := db.rows.map (fun r =>
      if r.id = id then { r with completed := true, date_completed := dateCompleted } else r) },
   (db.rows.filter (fun r => r.id = id)).length)

/-! ## Operations -/

/-- Go's `len(s)`: the number of bytes of the string. -/
def len (s : String) : Nat := s.utf8ByteSize

/-- The function `createDatabase` (lines 24-46).  `ioErr` is the error of
`connection.Exec`, if any. -/
def createDatabase (ioErr : Option String) (db : Db) : Res :=
  match ioErr with
  | some e => ⟨some e, db, []⟩
  | none => ⟨none, db, [.println "Database connected!"]⟩

/-- The function `addTodo` (lines 48-81). -/
def addTodo (ioErr : Option String) (now : Time) (description : String) (db : Db) : Res :=
  if len description = 0 then ⟨some "empty description", db, []⟩
  else
    match ioErr with
    | some e => ⟨some e, db, []⟩
    | none =>
      match insert description false (rfc3339 now) "" db with
      | .error e => ⟨some e, db, []⟩
      | .ok db' => ⟨none, db', [.println "Todo added successfully!"]⟩

/-- The function `deleteTodo` (lines 83-109). -/
def deleteTodo (ioErr : Option String) (todoId : Int) (db : Db) : Res :=
  match ioErr with
  | some e => ⟨some e, db, []⟩
  | none =>
    let r := deleteWhere todoId db
    if r.2 = 0 then ⟨some ("no todo found with ID = " ++ toString todoId), r.1, []⟩
    else ⟨none, r.1, [.println "Todo deleted successfully!"]⟩

/-- The loop of `showTodo` (lines 131-152): the calls it makes for the rows
still to scan and the final value of `count`. -/
def showLoop : List Row → Nat → List Out × Nat
  | [], count => ([], count)
  | r :: rest, count =>
    let status := if r.completed then "✅" else "❌"
    let tail := showLoop rest (count + 1)
    (.printRow r.id r.description status r.date_created r.date_completed ::
      .println "" :: tail.1, tail.2)

/-- The function `showTodo` (lines 111-159). -/
def showTodo (ioErr : Option String) (db : Db) : Res :=
  match ioErr with
  | some e => ⟨some e, db, []⟩
  | none =>
    let body := showLoop db.rows 0
    ⟨none, db,
      [.println "ID | DESCRIPTION | COMPLETED | DATE CREATED | DATE COMPLETED",
       .println "-----------------------------------------------------------"] ++
      body.1 ++ (if body.2 = 0 then [.println "No Todos Found!"] else [])⟩

/-- The function `completeTodo` (lines 161-189). -/
def completeTodo (ioErr : Option String) (now : Time) (todoId : Int) (db : Db) : Res :=
  match ioErr with
  | some e => ⟨some e, db, []⟩
  | none =>
    let r := updateCompletion (rfc3339 now) todoId db
    if r.2 = 0 then ⟨some ("no todo found with todoId = " ++ toString todoId), r.1, []⟩
    else ⟨none, r.1, [.println "Todo Marked as Completed!"]⟩

/-- The function `showHelp` (lines 191-201). -/
def showHelp : List Out :=
  [.println "Todo CLI Application",
   .println "-------------------",
   .println "Commands:",
   .println "  add \"description\"       - Add a new todo item",
   .println "  complete id \t\t  - Mark a todo as completed",
   .println "  delete id               - Delete a todo item",
   .println "  show                    - Display all todos",
   .println "  help                    - Show this help message",
   .println ""]

/-! ## Command line -/

/-- Lower-case form of one rune as far as it can be an ASCII letter: the
letters `A`-`Z`, U+0130 and U+212A (whose lower-case forms are `i` and `k`).
Every other rune has a lower-case form outside ASCII or is its own. -/
def lowerRune (c : Char) : Char :=
  if 'A'.toNat ≤ c.toNat ∧ c.toNat ≤ 'Z'.toNat then Char.ofNat (c.toNat + 32)
  else if c.toNat = 0x130 then 'i'
  else if c.toNat = 0x212A then 'k'
  else c

/-- Go's `strings.ToLower`, as far as comparison with an ASCII word goes. -/
def toLower (s : String) : String := String.mk (s.data.map lowerRune)

/-- Value of a run of decimal digits read after the digits `acc`; `none` when a
character is not a digit. -/
def digitsValue : List Char → Nat → Option Nat
  | [], acc => some acc
  | c :: cs, acc =>
    if '0'.toNat ≤ c.toNat ∧ c.toNat ≤ '9'.toNat then
      digitsValue cs (acc * 10 + (c.toNat - '0'.toNat))
    else none

/-- Go's `strconv.Atoi`: an optional sign and at least one decimal digit, the
value within the range of a 64-bit `int`; `none` stands for the error. -/
def atoi (s : String) : Option Int :=
  let body (neg : Bool) (cs : List Char) : Option Int :=
    match cs with
    | [] => none
    | _ =>
      match digitsValue cs 0 with
      | none => none
      | some n =>
        let v : Int := if neg then -(n : Int) else (n : Int)
        if minInt64 ≤ v ∧ v ≤ maxInt64 then some v else none
  match s.data with
  | '-' :: cs => body true cs
  | '+' :: cs => body false cs
  | cs => body false cs

/-- How the process ends: its exit status, the database it leaves and the
calls that wrote text. -/
structure Run where
  exit : Nat
  db : Db
  out : List Out
deriving DecidableEq, Repr

/-- The function `main` (lines 203-271) on `os.Args = args`.  `schemaErr` is the
error of the statement of `createDatabase`, `opErr` that of the statement of
the operation, `now` the reading of the clock.  `log.Fatal` ends the process
with status 1; indexing `args[1]` in an empty `os.Args` is a run-time panic,
status 2. -/
def main (schemaErr opErr : Option String) (now : Time) (args : List String) (db : Db) : Run :=
  let c := createDatabase schemaErr db
  match c.err with
  | some e => ⟨1, c.db, c.out ++ [.fatal e]⟩
  | none =>
    match args with
    | [] => ⟨2, c.db, c.out⟩
    | [_] => ⟨0, c.db, c.out ++ showHelp⟩
    | _ :: a1 :: rest =>
      let command := toLower a1
      if command = "show" then
        let r := showTodo opErr c.db
        match r.err with
        | some e => ⟨1, r.db, c.out ++ r.out ++ [.fatal e]⟩
        | none => ⟨0, r.db, c.out ++ r.out⟩
      else
        match rest with
        | [] => ⟨0, c.db, c.out ++ [.println "Insufficient arguments!"] ++ showHelp⟩
        | arg :: _ =>
          if command = "add" then
            let r := addTodo opErr now arg c.db
            match r.err with
            | some e => ⟨0, r.db, c.out ++ r.out ++ [.println e]⟩
            | none => ⟨0, r.db, c.out ++ r.out⟩
          else if command = "delete" then
            match atoi arg with
            | none => ⟨1, c.db, c.out ++ [.fatal "Invalid ID: must be a number!"]⟩
            | some id =>
              let r := deleteTodo opErr id c.db
              match r.err with
              | some e => ⟨0, r.db, c.out ++ r.out ++ [.println e]⟩
              | none => ⟨0, r.db, c.out ++ r.out⟩
          else if command = "complete" then
            match atoi arg with
            | none => ⟨1, c.db, c.out ++ [.fatal "Invalid ID: must be a number!"]⟩
            | some id =>
              let r := completeTodo opErr now id c.db
              match r.err with
              | some e => ⟨0, r.db, c.out ++ r.out ++ [.println e]⟩
              | none => ⟨0, r.db, c.out ++ r.out⟩
          else ⟨0, c.db, c.out ++ [.println "Invalid command!"] ++ showHelp⟩

/-! ## Histories -/

/-- One invocation that may change the table: the description given to
`addTodo` or the id given to `deleteTodo` or `completeTodo`, with the reading of
the clock where the function takes one. -/
inductive Op where
  | add (now : Time) (description : String)
  | complete (now : Time) (todoId : Int)
  | delete (todoId : Int)
deriving DecidableEq, Repr

/-- The result of one operation on a working store. -/
def Op.run : Op → Db → Res
  | .add now description, db => addTodo none now description db
  | .complete now todoId, db => completeTodo none now todoId db
  | .delete todoId, db => deleteTodo none todoId db

/-- The database after a sequence of operations, first operation first. -/
def runOps : List Op → Db → Db
  | [], db => db
  | op :: ops, db => runOps ops (op.run db).db

/-- The ids assigned by the successful adds of a sequence of operations. -/
def addedIds : List Op → Db → List Int
  | [], _ => []
  | op :: ops, db =>
    let r := op.run db
    match op, r.err with
    | .add _ _, none => nextId db :: addedIds ops r.db
    | _, _ => addedIds ops r.db

/-- The ids removed by the successful deletes of a sequence of operations. -/
def deletedIds : List Op → Db → List Int
  | [], _ => []
  | op :: ops, db =>
    let r := op.run db
    match op, r.err with
    | .delete todoId, none => todoId :: deletedIds ops r.db
    | _, _ => deletedIds ops r.db

/-- The ids that `showTodo` prints: the first argument of each `printRow`. -/
def printedIds : List Out → List Int
  | [] => []
  | .printRow id _ _ _ _ :: rest => id :: printedIds rest
  | _ :: rest => printedIds rest


/-- The text that a sequence of calls writes to standard output. -/
def stdout (out : List Out) : String :=
  String.mk (out.flatMap (fun o => o.render.data))

/-- The help text as the specification prints it (section 6, "Help text
(literal)"): eight lines, the `complete id` line padded with blanks. -/
def specHelpText : String :=
  "Todo CLI Application\n" ++
  "-------------------\n" ++
  "Commands:\n" ++
  "  add \"description\"       - Add a new todo item\n" ++
  "  complete id             - Mark a todo as completed\n" ++
  "  delete id               - Delete a todo item\n" ++
  "  show                    - Display all todos\n" ++
  "  help                    - Show this help message\n"


/-- The readings of the clock in a sequence of operations, in order. -/
def opTimes : List Op → List Time
  | [] => []
  | .add now _ :: ops => now :: opTimes ops
  | .complete now _ :: ops => now :: opTimes ops
  | .delete _ :: ops => opTimes ops

/-! ## Auxiliary lemmas -/

/-! ### Operations -/

theorem len_eq_zero_iff (s : String) : len s = 0 ↔ s = "" := by
  cases s with
  | mk cs =>
    cases cs with
    | nil => simp [len, String.utf8ByteSize, String.utf8ByteSize.go]
    | cons c cs =>
      have hc : 0 < c.utf8Size := Char.utf8Size_pos c
      constructor
      · intro h
        simp [len, String.utf8ByteSize, String.utf8ByteSize.go] at h
        omega
      · intro h
        have := congrArg String.data h
        simp at this

theorem showLoop_eq (rows : List Row) (count : Nat) :
    showLoop rows count =
      (rows.flatMap (fun r => [Out.printRow r.id r.description
          (if r.completed then "✅" else "❌") r.date_created r.date_completed, Out.println ""]),
       count + rows.length) := by
  induction rows generalizing count with
  | nil => simp [showLoop]
  | cons r rest ih => simp [showLoop, ih]; omega

theorem filter_id_length_eq_zero (rows : List Row) (id : Int) :
    (rows.filter (fun r => r.id = id)).length = 0 ↔ ∀ r ∈ rows, r.id ≠ id := by
  simp [List.filter_eq_nil_iff]

theorem filter_ne_eq_self (rows : List Row) (id : Int) (h : ∀ r ∈ rows, r.id ≠ id) :
    rows.filter (fun r => r.id ≠ id) = rows := by
  apply List.filter_eq_self.2
  intro r hr
  simpa using h r hr

theorem map_complete_eq_self (rows : List Row) (id : Int) (d : String)
    (h : ∀ r ∈ rows, r.id ≠ id) :
    rows.map (fun r => if r.id = id then { r with completed := true, date_completed := d } else r)
      = rows := by
  induction rows with
  | nil => rfl
  | cons r rest ih =>
    have h1 : r.id ≠ id := h r (List.mem_cons_self _ _)
    have h2 : ∀ r ∈ rest, r.id ≠ id := fun x hx => h x (List.mem_cons_of_mem _ hx)
    simp [h1, ih h2]

theorem addTodo_ok (now : Time) (description : String) (db : Db)
    (hl : len description ≠ 0) (hid : nextId db ≤ maxInt64) :
    addTodo none now description db =
      ⟨none, { rows := db.rows ++ [⟨nextId db, description, false, rfc3339 now, ""⟩],
               seq := nextId db }, [.println "Todo added successfully!"]⟩ := by
  have hid' : ¬ nextId db > maxInt64 := not_lt.2 hid
  simp [addTodo, insert, hl, hid']

theorem addTodo_err_none (ioErr : Option String) (now : Time) (description : String) (db : Db)
    (h : (addTodo ioErr now description db).err = none) :
    ioErr = none ∧ len description ≠ 0 ∧ nextId db ≤ maxInt64 := by
  unfold addTodo at h
  by_cases hl : len description = 0
  · simp [hl] at h
  · cases ioErr with
    | some e => simp [hl] at h
    | none =>
      by_cases hid : nextId db > maxInt64
      · simp [hl, insert, hid] at h
      · exact ⟨rfl, hl, not_lt.1 hid⟩

theorem completeTodo_found (now : Time) (todoId : Int) (db : Db)
    (h : ∃ r ∈ db.rows, r.id = todoId) :
    completeTodo none now todoId db =
      ⟨none, { db with rows := db.rows.map (fun r =>
          if r.id = todoId then { r with completed := true, date_completed := rfc3339 now }
          else r) },
        [.println "Todo Marked as Completed!"]⟩ := by
  have hne : (db.rows.filter (fun r => r.id = todoId)).length ≠ 0 := by
    rw [Ne, filter_id_length_eq_zero]
    push_neg
    exact h
  simp only [completeTodo, updateCompletion]
  rw [if_neg hne]

theorem completeTodo_missing (now : Time) (todoId : Int) (db : Db)
    (h : ∀ r ∈ db.rows, r.id ≠ todoId) :
    completeTodo none now todoId db =
      ⟨some ("no todo found with todoId = " ++ toString todoId), db, []⟩ := by
  have he : (db.rows.filter (fun r => r.id = todoId)).length = 0 :=
    (filter_id_length_eq_zero _ _).2 h
  simp only [completeTodo, updateCompletion]
  rw [if_pos he, map_complete_eq_self _ _ _ h]

theorem printedIds_flatMap (rows : List Row) :
    printedIds (rows.flatMap (fun r => [Out.printRow r.id r.description
          (if r.completed then "✅" else "❌") r.date_created r.date_completed, Out.println ""]))
      = rows.map Row.id := by
  induction rows with
  | nil => rfl
  | cons r rest ih =>
    rw [List.flatMap_cons]
    show r.id :: printedIds (rest.flatMap _) = _
    rw [ih, List.map_cons]

theorem showTodo_eq (db : Db) :
    showTodo none db =
      ⟨none, db,
        [Out.println "ID | DESCRIPTION | COMPLETED | DATE CREATED | DATE COMPLETED",
         Out.println "-----------------------------------------------------------"] ++
        db.rows.flatMap (fun r => [Out.printRow r.id r.description
          (if r.completed then "✅" else "❌") r.date_created r.date_completed, Out.println ""]) ++
        (if db.rows = [] then [Out.println "No Todos Found!"] else [])⟩ := by
  simp only [showTodo, showLoop_eq]
  cases h : db.rows with
  | nil => simp
  | cons r rest => simp

theorem deleteTodo_missing (todoId : Int) (db : Db) (h : ∀ r ∈ db.rows, r.id ≠ todoId) :
    deleteTodo none todoId db =
      ⟨some ("no todo found with ID = " ++ toString todoId), db, []⟩ := by
  have he : (db.rows.filter (fun r => r.id = todoId)).length = 0 :=
    (filter_id_length_eq_zero _ _).2 h
  simp only [deleteTodo, deleteWhere]
  rw [if_pos he, filter_ne_eq_self _ _ h]

theorem deleteTodo_found (todoId : Int) (db : Db) (h : ∃ r ∈ db.rows, r.id = todoId) :
    deleteTodo none todoId db =
      ⟨none, { db with rows := db.rows.filter (fun r => r.id ≠ todoId) },
        [.println "Todo deleted successfully!"]⟩ := by
  have hne : (db.rows.filter (fun r => r.id = todoId)).length ≠ 0 := by
    rw [Ne, filter_id_length_eq_zero]
    push_neg
    exact h
  simp only [deleteTodo, deleteWhere]
  rw [if_neg hne]

theorem main_exit_three (now : Time) (a0 a1 a2 : String) (rest : List String) (db : Db) :
    (main none none now (a0 :: a1 :: a2 :: rest) db).exit =
      if (toLower a1 = "delete" ∨ toLower a1 = "complete") ∧ atoi a2 = none then 1 else 0 := by
  by_cases hs : toLower a1 = "show"
  · simp [main, createDatabase, hs, showTodo]
  · by_cases ha : toLower a1 = "add"
    · simp only [main, createDatabase, hs, ha]
      cases he : (addTodo none now a2 db).err <;> simp [he]
    · by_cases hd : toLower a1 = "delete"
      · simp only [main, createDatabase, hs, ha, hd]
        cases hp : atoi a2 with
        | none => simp
        | some id => cases he : (deleteTodo none id db).err <;> simp [he]
      · by_cases hc : toLower a1 = "complete"
        · simp only [main, createDatabase, hs, ha, hd, hc]
          cases hp : atoi a2 with
          | none => simp
          | some id => cases he : (completeTodo none now id db).err <;> simp [he]
        · simp [main, createDatabase, hs, ha, hd, hc]

/-! ### Histories -/

theorem foldr_max_eq (rows : List Row) (s : Int) (h : ∀ r ∈ rows, r.id ≤ s) :
    rows.foldr (fun r m => max r.id m) s = s := by
  induction rows with
  | nil => rfl
  | cons r rest ih =>
    have h1 : r.id ≤ s := h r (List.mem_cons_self _ _)
    have h2 : ∀ x ∈ rest, x.id ≤ s := fun x hx => h x (List.mem_cons_of_mem _ hx)
    simp only [List.foldr_cons, ih h2]
    exact max_eq_right h1

theorem nextId_eq (db : Db) (h : ∀ r ∈ db.rows, r.id ≤ db.seq) : nextId db = db.seq + 1 := by
  simp only [nextId, foldr_max_eq _ _ h]

theorem addTodo_cases (now : Time) (description : String) (db : Db) :
    ((addTodo none now description db).err = none ∧
      (addTodo none now description db).db =
        { rows := db.rows ++ [⟨nextId db, description, false, rfc3339 now, ""⟩],
          seq := nextId db }) ∨
    ((addTodo none now description db).err ≠ none ∧ (addTodo none now description db).db = db) := by
  by_cases hl : len description = 0
  · right
    simp [addTodo, hl]
  · by_cases hid : nextId db ≤ maxInt64
    · left
      rw [addTodo_ok now description db hl hid]
      exact ⟨rfl, rfl⟩
    · right
      have hid' : nextId db > maxInt64 := not_le.1 hid
      simp [addTodo, insert, hl, hid']

theorem deleteTodo_cases (todoId : Int) (db : Db) :
    ((∃ r ∈ db.rows, r.id = todoId) ∧ (deleteTodo none todoId db).err = none ∧
      (deleteTodo none todoId db).db =
        { db with rows := db.rows.filter (fun r => r.id ≠ todoId) }) ∨
    ((∀ r ∈ db.rows, r.id ≠ todoId) ∧ (deleteTodo none todoId db).err ≠ none ∧
      (deleteTodo none todoId db).db = db) := by
  by_cases h : ∃ r ∈ db.rows, r.id = todoId
  · left
    rw [deleteTodo_found todoId db h]
    exact ⟨h, rfl, rfl⟩
  · right
    push_neg at h
    rw [deleteTodo_missing todoId db h]
    exact ⟨h, by simp, rfl⟩

theorem completeTodo_db (now : Time) (todoId : Int) (db : Db) :
    (completeTodo none now todoId db).db =
      { db with rows := db.rows.map (fun r =>
        if r.id = todoId then { r with completed := true, date_completed := rfc3339 now }
        else r) } := by
  by_cases h : (db.rows.filter (fun r => r.id = todoId)).length = 0
  · simp only [completeTodo, updateCompletion, if_pos h]
  · simp only [completeTodo, updateCompletion, if_neg h]

theorem addedIds_add (now : Time) (description : String) (ops : List Op) (db : Db) :
    addedIds (.add now description :: ops) db =
      if (addTodo none now description db).err = none then
        nextId db :: addedIds ops (addTodo none now description db).db
      else addedIds ops (addTodo none now description db).db := by
  cases h : (addTodo none now description db).err <;> simp [addedIds, Op.run, h]

theorem addedIds_complete (now : Time) (todoId : Int) (ops : List Op) (db : Db) :
    addedIds (.complete now todoId :: ops) db =
      addedIds ops (completeTodo none now todoId db).db := by
  cases h : (completeTodo none now todoId db).err <;> simp [addedIds, Op.run, h]

theorem addedIds_delete (todoId : Int) (ops : List Op) (db : Db) :
    addedIds (.delete todoId :: ops) db = addedIds ops (deleteTodo none todoId db).db := by
  cases h : (deleteTodo none todoId db).err <;> simp [addedIds, Op.run, h]

theorem deletedIds_add (now : Time) (description : String) (ops : List Op) (db : Db) :
    deletedIds (.add now description :: ops) db =
      deletedIds ops (addTodo none now description db).db := by
  cases h : (addTodo none now description db).err <;> simp [deletedIds, Op.run, h]

theorem deletedIds_complete (now : Time) (todoId : Int) (ops : List Op) (db : Db) :
    deletedIds (.complete now todoId :: ops) db =
      deletedIds ops (completeTodo none now todoId db).db := by
  cases h : (completeTodo none now todoId db).err <;> simp [deletedIds, Op.run, h]

theorem deletedIds_delete (todoId : Int) (ops : List Op) (db : Db) :
    deletedIds (.delete todoId :: ops) db =
      if (deleteTodo none todoId db).err = none then
        todoId :: deletedIds ops (deleteTodo none todoId db).db
      else deletedIds ops (deleteTodo none todoId db).db := by
  cases h : (deleteTodo none todoId db).err <;> simp [deletedIds, Op.run, h]

/-- An operation keeps every rowid of the table at most the counter, the state of
a table whose rows were all inserted through the `AUTOINCREMENT` key, and never
lowers the counter. -/
theorem run_seqBound (op : Op) (db : Db) (h : ∀ r ∈ db.rows, r.id ≤ db.seq) :
    (∀ r ∈ (op.run db).db.rows, r.id ≤ (op.run db).db.seq) ∧ db.seq ≤ (op.run db).db.seq := by
  cases op with
  | add now description =>
    rcases addTodo_cases now description db with ⟨_, hdb⟩ | ⟨_, hdb⟩
    · simp only [Op.run, hdb, nextId_eq db h]
      refine ⟨?_, by omega⟩
      intro r hr
      rcases List.mem_append.1 hr with hr | hr
      · have := h r hr
        omega
      · rw [List.mem_singleton.1 hr]
    · simp only [Op.run, hdb]
      exact ⟨h, le_refl _⟩
  | complete now todoId =>
    simp only [Op.run, completeTodo_db]
    refine ⟨?_, le_refl _⟩
    intro r hr
    obtain ⟨r0, hr0, rfl⟩ := List.mem_map.1 hr
    have := h r0 hr0
    by_cases hid : r0.id = todoId
    · simpa [hid] using this
    · simpa [hid] using this
  | delete todoId =>
    rcases deleteTodo_cases todoId db with ⟨_, _, hdb⟩ | ⟨_, _, hdb⟩
    · simp only [Op.run, hdb]
      exact ⟨fun r hr => h r (List.mem_of_mem_filter hr), le_refl _⟩
    · simp only [Op.run, hdb]
      exact ⟨h, le_refl _⟩

theorem addedIds_gt_seq (ops : List Op) (db : Db) (h : ∀ r ∈ db.rows, r.id ≤ db.seq) :
    ∀ i ∈ addedIds ops db, db.seq < i := by
  induction ops generalizing db with
  | nil => intro i hi; simp [addedIds] at hi
  | cons op ops ih =>
    have hb := run_seqBound op db h
    have ih' := ih (op.run db).db hb.1
    intro i hi
    cases op with
    | add now description =>
      rw [addedIds_add] at hi
      by_cases he : (addTodo none now description db).err = none
      · rw [if_pos he] at hi
        rcases List.mem_cons.1 hi with rfl | hi
        · rw [nextId_eq db h]; omega
        · have := ih' i hi
          have := hb.2
          omega
      · rw [if_neg he] at hi
        have := ih' i hi
        have := hb.2
        omega
    | complete now todoId =>
      rw [addedIds_complete] at hi
      have := ih' i hi
      have := hb.2
      omega
    | delete todoId =>
      rw [addedIds_delete] at hi
      have := ih' i hi
      have := hb.2
      omega

/-- The ids in the table after a sequence of operations on a table whose rowids
are at most the counter. -/
theorem mem_ids_runOps (ops : List Op) (db : Db) (h : ∀ r ∈ db.rows, r.id ≤ db.seq) (i : Int) :
    i ∈ (runOps ops db).rows.map Row.id ↔
      (i ∈ db.rows.map Row.id ∨ i ∈ addedIds ops db) ∧ i ∉ deletedIds ops db := by
  induction ops generalizing db with
  | nil => simp [runOps, addedIds, deletedIds]
  | cons op ops ih =>
    have hb := run_seqBound op db h
    have ih' := ih (op.run db).db hb.1
    have hgt := addedIds_gt_seq ops (op.run db).db hb.1
    cases op with
    | add now description =>
      simp only [runOps] at ih' ⊢
      rw [ih', addedIds_add, deletedIds_add]
      simp only [Op.run] at hb hgt ⊢
      rcases addTodo_cases now description db with ⟨he, hdb⟩ | ⟨he, hdb⟩
      · rw [if_pos he, hdb]
        simp only [List.map_append, List.mem_append, List.map_cons, List.map_nil,
          List.mem_singleton, List.mem_cons]
        tauto
      · rw [if_neg he, hdb]
    | complete now todoId =>
      simp only [runOps] at ih' ⊢
      rw [ih', addedIds_complete, deletedIds_complete]
      simp only [Op.run]
      have hids : (completeTodo none now todoId db).db.rows.map Row.id = db.rows.map Row.id := by
        rw [completeTodo_db]
        simp only [List.map_map]
        apply List.map_congr_left
        intro r _
        by_cases hid : r.id = todoId
        · simp [hid]
        · simp [hid]
      rw [hids]
    | delete todoId =>
      simp only [runOps] at ih' ⊢
      rw [ih', addedIds_delete, deletedIds_delete]
      simp only [Op.run] at hb hgt ⊢
      rcases deleteTodo_cases todoId db with ⟨⟨r, hr, hrid⟩, he, hdb⟩ | ⟨_, he, hdb⟩
      · rw [if_pos he]
        have hadd : ∀ j ∈ addedIds ops (deleteTodo none todoId db).db, j ≠ todoId := by
          intro j hj
          have h1 := hgt j hj
          have h2 := h r hr
          rw [hdb] at h1
          simp only at h1
          omega
        rw [hdb] at hadd ⊢
        simp only [List.mem_map, List.mem_filter, List.mem_cons, not_or, decide_eq_true_eq]
        constructor
        · rintro ⟨hin | hin, hnd⟩
          · obtain ⟨x, ⟨hx, hxid⟩, rfl⟩ := hin
            exact ⟨Or.inl ⟨x, hx, rfl⟩, hxid, hnd⟩
          · exact ⟨Or.inr hin, hadd i hin, hnd⟩
        · rintro ⟨hin | hin, hne, hnd⟩
          · obtain ⟨x, hx, rfl⟩ := hin
            exact ⟨Or.inl ⟨x, ⟨hx, hne⟩, rfl⟩, hnd⟩
          · exact ⟨Or.inr hin, hnd⟩
      · rw [if_neg he, hdb]

theorem addedIds_pairwise (ops : List Op) (db : Db) (h : ∀ r ∈ db.rows, r.id ≤ db.seq) :
    (addedIds ops db).Pairwise (fun a b => a < b) := by
  induction ops generalizing db with
  | nil => simp [addedIds]
  | cons op ops ih =>
    have hb := run_seqBound op db h
    have ih' := ih (op.run db).db hb.1
    have hgt := addedIds_gt_seq ops (op.run db).db hb.1
    cases op with
    | add now description =>
      rw [addedIds_add]
      simp only [Op.run] at hb hgt ih'
      by_cases he : (addTodo none now description db).err = none
      · rw [if_pos he]
        refine List.Pairwise.cons ?_ ih'
        intro j hj
        have h1 := hgt j hj
        rcases addTodo_cases now description db with ⟨_, hdb⟩ | ⟨he', _⟩
        · rw [hdb] at h1
          exact h1
        · exact absurd he he'
      · rw [if_neg he]
        exact ih'
    | complete now todoId =>
      rw [addedIds_complete]
      exact ih'
    | delete todoId =>
      rw [addedIds_delete]
      exact ih'

theorem runOps_seqBound (ops : List Op) (db : Db) (h : ∀ r ∈ db.rows, r.id ≤ db.seq) :
    (∀ r ∈ (runOps ops db).rows, r.id ≤ (runOps ops db).seq) ∧ db.seq ≤ (runOps ops db).seq := by
  induction ops generalizing db with
  | nil => exact ⟨h, le_refl _⟩
  | cons op ops ih =>
    have hb := run_seqBound op db h
    have ih' := ih (op.run db).db hb.1
    exact ⟨ih'.1, le_trans hb.2 ih'.2⟩

theorem deletedIds_le_seq (ops : List Op) (db : Db) (h : ∀ r ∈ db.rows, r.id ≤ db.seq) :
    ∀ i ∈ deletedIds ops db, i ≤ (runOps ops db).seq := by
  induction ops generalizing db with
  | nil => intro i hi; simp [deletedIds] at hi
  | cons op ops ih =>
    have hb := run_seqBound op db h
    have ih' := ih (op.run db).db hb.1
    have hmono := (runOps_seqBound ops (op.run db).db hb.1).2
    intro i hi
    cases op with
    | add now description =>
      rw [deletedIds_add] at hi
      exact ih' i hi
    | complete now todoId =>
      rw [deletedIds_complete] at hi
      exact ih' i hi
    | delete todoId =>
      rw [deletedIds_delete] at hi
      simp only [Op.run, runOps] at hb hmono ih' ⊢
      rcases deleteTodo_cases todoId db with ⟨⟨r, hr, hrid⟩, he, _⟩ | ⟨_, he, _⟩
      · rw [if_pos he] at hi
        rcases List.mem_cons.1 hi with rfl | hi
        · have := h r hr
          have := hb.2
          omega
        · exact ih' i hi
      · rw [if_neg he] at hi
        exact ih' i hi

theorem printedIds_append (a b : List Out) :
    printedIds (a ++ b) = printedIds a ++ printedIds b := by
  induction a with
  | nil => rfl
  | cons o rest ih => cases o <;> simp [printedIds, ih]

theorem printedIds_showTodo (db : Db) :
    printedIds (showTodo none db).out = db.rows.map Row.id := by
  rw [showTodo_eq]
  simp only [printedIds_append, printedIds_flatMap]
  by_cases h : db.rows = [] <;> simp [h, printedIds]

theorem fresh_seqBound : ∀ r ∈ Db.fresh.rows, r.id ≤ Db.fresh.seq := by
  intro r hr
  simp [Db.fresh] at hr

/-! ### Calendar -/

theorem daysBefore_vals :
    daysBefore 0 = 0 ∧ daysBefore 1 = 31 ∧ daysBefore 2 = 59 ∧ daysBefore 3 = 90 ∧
    daysBefore 4 = 120 ∧ daysBefore 5 = 151 ∧ daysBefore 6 = 181 ∧ daysBefore 7 = 212 ∧
    daysBefore 8 = 243 ∧ daysBefore 9 = 273 ∧ daysBefore 10 = 304 ∧ daysBefore 11 = 334 ∧
    daysBefore 12 = 365 := by
  decide

theorem monthDay_plain (day month : Int) (h0 : 0 ≤ day) (h1 : day ≤ 364)
    (hmonth : month = day / 31) (md : Int × Int)
    (hmd : md = if day ≥ daysBefore (month + 1) then (month + 2, day - daysBefore (month + 1) + 1)
      else (month + 1, day - daysBefore month + 1)) :
    1 ≤ md.1 ∧ md.1 ≤ 12 ∧ 1 ≤ md.2 ∧ md.2 ≤ daysBefore md.1 - daysBefore (md.1 - 1) ∧
      daysBefore (md.1 - 1) + md.2 - 1 = day := by
  have hm : 0 ≤ month ∧ month ≤ 11 := by omega
  obtain ⟨hm0, hm11⟩ := hm
  obtain ⟨v0, v1, v2, v3, v4, v5, v6, v7, v8, v9, v10, v11, v12⟩ := daysBefore_vals
  interval_cases month <;>
    norm_num only [v0, v1, v2, v3, v4, v5, v6, v7, v8, v9, v10, v11, v12] at hmd <;>
    split_ifs at hmd <;>
    subst hmd <;>
    norm_num only [v0, v1, v2, v3, v4, v5, v6, v7, v8, v9, v10, v11, v12] <;>
    first
      | omega
      | exact ⟨trivial, trivial, by omega, by omega, by omega⟩

theorem monthDay_spec (leap : Bool) (yday : Int) (h0 : 0 ≤ yday)
    (h1 : yday ≤ if leap then 365 else 364) :
    1 ≤ (monthDay leap yday).1 ∧ (monthDay leap yday).1 ≤ 12 ∧ 1 ≤ (monthDay leap yday).2 ∧
    (monthDay leap yday).2 ≤ daysBefore (monthDay leap yday).1 -
      daysBefore ((monthDay leap yday).1 - 1) +
      (if leap ∧ (monthDay leap yday).1 = 2 then 1 else 0) ∧
    daysBefore ((monthDay leap yday).1 - 1) +
      (if leap ∧ (monthDay leap yday).1 > 2 then 1 else 0) + (monthDay leap yday).2 - 1 = yday := by
  obtain ⟨v0, v1, v2, v3, v4, v5, v6, v7, v8, v9, v10, v11, v12⟩ := daysBefore_vals
  cases leap with
  | false =>
    simp only [Bool.false_eq_true, if_false] at h1
    have hmd : monthDay false yday =
        if yday ≥ daysBefore (yday / 31 + 1) then
          (yday / 31 + 2, yday - daysBefore (yday / 31 + 1) + 1)
        else (yday / 31 + 1, yday - daysBefore (yday / 31) + 1) := by
      simp [monthDay]
    have := monthDay_plain yday (yday / 31) h0 h1 rfl _ hmd
    simpa using this
  | true =>
    simp only [if_true] at h1
    by_cases h59 : yday = 59
    · subst h59
      have hmd : monthDay true 59 = (2, 29) := by simp [monthDay]
      rw [hmd]
      simp [v1, v2]
    · by_cases hgt : yday > 59
      · have hmd : monthDay true yday =
            if yday - 1 ≥ daysBefore ((yday - 1) / 31 + 1) then
              ((yday - 1) / 31 + 2, yday - 1 - daysBefore ((yday - 1) / 31 + 1) + 1)
            else ((yday - 1) / 31 + 1, yday - 1 - daysBefore ((yday - 1) / 31) + 1) := by
          simp [monthDay, h59, hgt]
        have key := monthDay_plain (yday - 1) ((yday - 1) / 31) (by omega) (by omega) rfl _ hmd
        have hm3 : 3 ≤ (monthDay true yday).1 := by
          by_contra hlt
          have hle : (monthDay true yday).1 ≤ 2 := by omega
          obtain ⟨k1, _, k3, k4, k5⟩ := key
          have hcases : (monthDay true yday).1 = 1 ∨ (monthDay true yday).1 = 2 := by omega
          rcases hcases with hc | hc
          · rw [hc] at k4 k5
            norm_num only [v0, v1] at k4 k5
            omega
          · rw [hc] at k4 k5
            norm_num only [v1, v2] at k4 k5
            omega
        have hne : ¬ (monthDay true yday).1 = 2 := by omega
        have hgt3 : (monthDay true yday).1 > 2 := by omega
        simp only [true_and, hne, hgt3, if_true, if_false]
        obtain ⟨k1, k2, k3, k4, k5⟩ := key
        refine ⟨k1, k2, k3, by omega, by omega⟩
      · have hlt : yday < 59 := by omega
        have hmd : monthDay true yday =
            if yday ≥ daysBefore (yday / 31 + 1) then
              (yday / 31 + 2, yday - daysBefore (yday / 31 + 1) + 1)
            else (yday / 31 + 1, yday - daysBefore (yday / 31) + 1) := by
          simp [monthDay, h59, hgt]
        have key := monthDay_plain yday (yday / 31) h0 (by omega) rfl _ hmd
        have hm12 : (monthDay true yday).1 ≤ 2 := by
          by_contra hlt'
          obtain ⟨k1, k2, k3, k4, k5⟩ := key
          have h3 : 3 ≤ (monthDay true yday).1 := by omega
          have hmono : 59 ≤ daysBefore ((monthDay true yday).1 - 1) := by
            generalize (monthDay true yday).1 = m at h3 k2
            interval_cases m <;> norm_num only [v2, v3, v4, v5, v6, v7, v8, v9, v10, v11]
          omega
        have hgt3 : ¬ (monthDay true yday).1 > 2 := by omega
        obtain ⟨k1, k2, k3, k4, k5⟩ := key
        simp only [true_and, hgt3, if_false]
        refine ⟨k1, k2, k3, ?_, by omega⟩
        split_ifs <;> omega

/-- The arithmetic of the 400-, 100-, 4- and 1-year cycles of `absYearDay`: the
days before the year plus the day of the year give back the day number, and day
365 occurs only in a leap year. -/
theorem cycle_core (d n400 d1 c c' d2 e d3 f f' yday Y : Int)
    (h400 : n400 = d / 146097) (hd1 : d1 = d - 146097 * n400)
    (hc : c = d1 / 36524) (hc' : c' = c - c / 4) (hd2 : d2 = d1 - 36524 * c')
    (he : e = d2 / 1461) (hd3 : d3 = d2 - 1461 * e)
    (hf : f = d3 / 365) (hf' : f' = f - f / 4) (hyd : yday = d3 - 365 * f')
    (hY : Y = 400 * n400 + 100 * c' + 4 * e + f') :
    365 * Y + Y / 4 - Y / 100 + Y / 400 + yday = d ∧
    (yday = 365 → (Y + 1) % 4 = 0 ∧ ((Y + 1) % 100 ≠ 0 ∨ (Y + 1) % 400 = 0)) ∧
    0 ≤ yday ∧ yday ≤ 365 := by
  have hcr : 0 ≤ c ∧ c ≤ 4 := by omega
  have hfr : 0 ≤ f ∧ f ≤ 4 := by omega
  obtain ⟨hc0, hc4⟩ := hcr
  obtain ⟨hf0, hf4⟩ := hfr
  have hc'' : c' = 0 ∨ c' = 1 ∨ c' = 2 ∨ c' = 3 := by omega
  have hf'' : f' = 0 ∨ f' = 1 ∨ f' = 2 ∨ f' = 3 := by omega
  have hd1r : 0 ≤ d1 ∧ d1 ≤ 146096 := by omega
  have hd2r : 0 ≤ d2 ∧ d2 ≤ 36524 := by omega
  have her : 0 ≤ e ∧ e ≤ 24 := by omega
  have hd3r : 0 ≤ d3 ∧ d3 ≤ 1460 := by omega
  have hd3e : e = 24 → c' ≠ 3 → d3 ≤ 1459 := by omega
  have hq4 : Y / 4 = 100 * n400 + 25 * c' + e := by omega
  have hq100 : Y / 100 = 4 * n400 + c' := by omega
  have hq400 : Y / 400 = n400 := by omega
  refine ⟨by omega, ?_, by omega, by omega⟩
  intro h365
  have hf3 : f' = 3 := by omega
  have hm4 : (Y + 1) % 4 = 0 := by omega
  refine ⟨hm4, ?_⟩
  by_cases h24 : e = 24
  · by_cases hc3 : c' = 3
    · right; omega
    · exfalso; omega
  · left; omega

theorem absYearDay_spec (z : Int) :
    365 * ((absYearDay z).1 - 1) + ((absYearDay z).1 - 1) / 4 - ((absYearDay z).1 - 1) / 100 +
      ((absYearDay z).1 - 1) / 400 + (absYearDay z).2 - 719162 = z ∧
    ((absYearDay z).2 = 365 → isLeap (absYearDay z).1 = true) ∧
    0 ≤ (absYearDay z).2 ∧ (absYearDay z).2 ≤ 365 := by
  have h := cycle_core (z + 719162) _ _ _ _ _ _ _ _ _ (absYearDay z).2 ((absYearDay z).1 - 1)
    rfl rfl rfl rfl rfl rfl rfl rfl rfl rfl (by simp only [absYearDay]; omega)
  obtain ⟨h1, h2, h3, h4⟩ := h
  refine ⟨by omega, ?_, h3, h4⟩
  intro h365
  have := h2 h365
  simp only [sub_add_cancel] at this
  simpa [isLeap] using this

/-- The cycles of `absYearDay` on the days of the years 0000-9999. -/
theorem cycle_range (d n400 d1 c c' d2 e d3 f f' Y : Int)
    (h400 : n400 = d / 146097) (hd1 : d1 = d - 146097 * n400)
    (hc : c = d1 / 36524) (hc' : c' = c - c / 4) (hd2 : d2 = d1 - 36524 * c')
    (he : e = d2 / 1461) (hd3 : d3 = d2 - 1461 * e)
    (hf : f = d3 / 365) (hf' : f' = f - f / 4)
    (hY : Y = 400 * n400 + 100 * c' + 4 * e + f')
    (hlo : -366 ≤ d) (hhi : d ≤ 3652058) : -1 ≤ Y ∧ Y ≤ 9998 := by
  have hcr : 0 ≤ c ∧ c ≤ 4 := by omega
  have hfr : 0 ≤ f ∧ f ≤ 4 := by omega
  have hc'' : 0 ≤ c' ∧ c' ≤ 3 := by omega
  have hf'' : 0 ≤ f' ∧ f' ≤ 3 := by omega
  have hd2r : 0 ≤ d2 ∧ d2 ≤ 36524 := by omega
  have her : 0 ≤ e ∧ e ≤ 24 := by omega
  have hn : -1 ≤ n400 ∧ n400 ≤ 24 := by omega
  constructor
  · by_cases hn0 : n400 = -1
    · have h1 : c' = 3 := by omega
      have h2 : e = 24 := by omega
      have h3 : f' = 3 := by omega
      omega
    · omega
  · by_cases hn24 : n400 = 24
    · by_cases h1 : c' = 3
      · by_cases h2 : e = 24
        · have h3 : f' ≤ 2 := by omega
          omega
        · omega
      · omega
    · omega

theorem absYearDay_year_range (z : Int) (h0 : -719528 ≤ z) (h1 : z ≤ 2932896) :
    0 ≤ (absYearDay z).1 ∧ (absYearDay z).1 ≤ 9999 := by
  have h := cycle_range (z + 719162) _ _ _ _ _ _ _ _ _ ((absYearDay z).1 - 1)
    rfl rfl rfl rfl rfl rfl rfl rfl rfl (by simp only [absYearDay]; omega)
    (by omega) (by omega)
  omega

theorem civilFromDays_spec (z : Int) :
    1 ≤ (civilFromDays z).2.1 ∧ (civilFromDays z).2.1 ≤ 12 ∧ 1 ≤ (civilFromDays z).2.2 ∧
    (civilFromDays z).2.2 ≤ daysIn (civilFromDays z).1 (civilFromDays z).2.1 ∧
    daysFromCivil (civilFromDays z).1 (civilFromDays z).2.1 (civilFromDays z).2.2 = z := by
  obtain ⟨k1, k2, k3, k4⟩ := absYearDay_spec z
  have hle : (absYearDay z).2 ≤ if isLeap (absYearDay z).1 then 365 else 364 := by
    by_cases hl : isLeap (absYearDay z).1 = true
    · simp only [hl, if_true]; exact k4
    · simp only [hl, if_false]
      by_contra hgt
      have : (absYearDay z).2 = 365 := by omega
      exact hl (k2 this)
  obtain ⟨m1, m2, m3, m4, m5⟩ := monthDay_spec (isLeap (absYearDay z).1) (absYearDay z).2 k3 hle
  simp only [civilFromDays, daysIn, daysFromCivil]
  refine ⟨m1, m2, m3, m4, ?_⟩
  omega
/-! ### Digits -/

theorem digitVal_utod (k : Nat) (h : k < 10) : digitVal (utod k) = some (k : Int) := by
  interval_cases k <;> rfl

theorem num2_utod (a b : Nat) (ha : a < 10) (hb : b < 10) :
    num2 (utod a) (utod b) = some (10 * (a : Int) + b) := by
  simp only [num2, digitVal_utod a ha, digitVal_utod b hb]

theorem appendInt_two (x : Int) (h0 : 0 ≤ x) (h1 : x < 100) :
    ∃ a b, appendInt x 2 = [a, b] ∧ num2 a b = some x := by
  refine ⟨utod (x.natAbs / 10), utod (x.natAbs % 10), ?_, ?_⟩
  · have hn : ¬ x < 0 := by omega
    have hu : x.natAbs < 100 := by omega
    simp [appendInt, hn, hu]
  · rw [num2_utod _ _ (by omega) (by omega)]
    congr 1
    omega

theorem appendInt_four (x : Int) (h0 : 0 ≤ x) (h1 : x < 10000) :
    ∃ a b c d, appendInt x 4 = [a, b, c, d] ∧ num4 a b c d = some x := by
  refine ⟨utod (x.natAbs / 1000), utod (x.natAbs / 100 % 10), utod (x.natAbs / 10 % 10),
    utod (x.natAbs % 10), ?_, ?_⟩
  · have hn : ¬ x < 0 := by omega
    have hu : x.natAbs < 10000 := by omega
    simp [appendInt, hn, hu]
  · simp only [num4, num2_utod _ _ (show x.natAbs / 1000 < 10 by omega)
      (show x.natAbs / 100 % 10 < 10 by omega),
      num2_utod _ _ (show x.natAbs / 10 % 10 < 10 by omega) (show x.natAbs % 10 < 10 by omega)]
    congr 1
    omega

theorem parseZone_zoneSuffix (off : Int) (h0 : -86400 < off) (h1 : off < 86400)
    (h60 : off % 60 = 0) : parseZone (zoneSuffix off) = some off := by
  by_cases hz : off = 0
  · subst hz
    rfl
  · have htd : Int.tdiv off 60 * 60 = off :=
      Int.tdiv_mul_cancel (Int.dvd_of_emod_eq_zero h60)
    generalize hzone : Int.tdiv off 60 = zone at htd
    obtain ⟨n, hn⟩ : ∃ n : Nat, n = zone.natAbs := ⟨_, rfl⟩
    have hnz : (n : Int) = if zone < 0 then -zone else zone := by
      rw [hn]
      split_ifs with hneg
      · exact Int.ofNat_natAbs_of_nonpos (by omega)
      · exact Int.natAbs_of_nonneg (by omega)
    have hlt : n < 1440 := by
      split_ifs at hnz <;> omega
    obtain ⟨a, b, hab, hnab⟩ := appendInt_two ((n / 60 : Nat) : Int) (by omega) (by omega)
    obtain ⟨c, d, hcd, hncd⟩ := appendInt_two ((n % 60 : Nat) : Int) (by omega) (by omega)
    have h24 : ((n / 60 : Nat) : Int) < 24 := by omega
    have h59 : ((n % 60 : Nat) : Int) < 60 := by omega
    have hsum : ((n / 60 : Nat) : Int) * 3600 + ((n % 60 : Nat) : Int) * 60 = (n : Int) * 60 := by
      omega
    simp only [zoneSuffix, hz, if_false, hzone, ← hn, hab, hcd]
    by_cases hneg : zone < 0
    · simp only [hneg, if_true] at hnz
      simp only [hneg, if_true, List.cons_append, List.nil_append, parseZone,
        hnab, hncd, h24, h59, or_true, true_and, and_self]
      rw [hsum]
      exact congrArg some (by omega)
    · simp only [hneg, if_false] at hnz
      have hpm : ¬ ('+' = '-') := by decide
      simp only [hneg, if_false, List.cons_append, List.nil_append, parseZone,
        hnab, hncd, h24, h59, true_or, true_and, and_self, hpm, if_true]
      rw [hsum]
      exact congrArg some (by omega)
theorem daysIn_le (y m : Int) (h1 : 1 ≤ m) (h12 : m ≤ 12) : daysIn y m ≤ 31 := by
  obtain ⟨v0, v1, v2, v3, v4, v5, v6, v7, v8, v9, v10, v11, v12⟩ := daysBefore_vals
  unfold daysIn
  interval_cases m <;>
    norm_num only [v0, v1, v2, v3, v4, v5, v6, v7, v8, v9, v10, v11, v12] <;>
    split_ifs with hc <;> first | omega | exact absurd hc.2 (by decide)

/-- Reading back what `Format` wrote gives the instant of the clock reading. -/
theorem parseRFC3339_rfc3339 (t : Time) (h : t.InRange) :
    parseRFC3339 (rfc3339 t) = some t.unix := by
  obtain ⟨hlo, hhi, ho0, ho1, ho60⟩ := h
  obtain ⟨days, hdays⟩ : ∃ d, d = (t.unix + t.offset) / 86400 := ⟨_, rfl⟩
  obtain ⟨sod, hsod⟩ : ∃ s, s = (t.unix + t.offset) % 86400 := ⟨_, rfl⟩
  have hyr := absYearDay_year_range days (by omega) (by omega)
  obtain ⟨c1, c2, c3, c4, c5⟩ := civilFromDays_spec days
  have hy1 : (civilFromDays days).1 = (absYearDay days).1 := rfl
  rw [← hy1] at hyr
  generalize hy : (civilFromDays days).1 = y at *
  generalize hm : (civilFromDays days).2.1 = m at *
  generalize hd : (civilFromDays days).2.2 = d at *
  have hdmax : d ≤ 31 := le_trans c4 (daysIn_le y m c1 c2)
  obtain ⟨y1, y2, y3, y4, hya, hyn⟩ := appendInt_four y hyr.1 (by omega)
  obtain ⟨m1, m2, hma, hmn⟩ := appendInt_two m (by omega) (by omega)
  obtain ⟨d1, d2, hda, hdn⟩ := appendInt_two d (by omega) (by omega)
  obtain ⟨h1, h2, hha, hhn⟩ := appendInt_two (sod / 3600) (by omega) (by omega)
  obtain ⟨n1, n2, hna, hnn⟩ := appendInt_two (sod % 3600 / 60) (by omega) (by omega)
  obtain ⟨s1, s2, hsa, hsn⟩ := appendInt_two (sod % 60) (by omega) (by omega)
  have hz := parseZone_zoneSuffix t.offset ho0 ho1 ho60
  have hchars : rfc3339Chars t =
      y1 :: y2 :: y3 :: y4 :: '-' :: m1 :: m2 :: '-' :: d1 :: d2 :: 'T' ::
        h1 :: h2 :: ':' :: n1 :: n2 :: ':' :: s1 :: s2 :: zoneSuffix t.offset := by
    simp only [rfc3339Chars, ← hdays, ← hsod, hy, hm, hd, hya, hma, hda, hha, hna, hsa,
      List.cons_append, List.nil_append]
  simp only [parseRFC3339, rfc3339, hchars, and_self, if_true, hyn, hmn, hdn, hhn, hnn, hsn, hz]
  have hcond : 1 ≤ m ∧ m ≤ 12 ∧ 1 ≤ d ∧ d ≤ daysIn y m ∧ sod / 3600 < 24 ∧
      sod % 3600 / 60 < 60 ∧ sod % 60 < 60 :=
    ⟨c1, c2, c3, c4, by omega, by omega, by omega⟩
  rw [if_pos hcond, c5]
  exact congrArg some (by omega)
/-! ### Timestamps of the rows -/

theorem stamps_mono (db : Db) (L L' : Int) (hL : L ≤ L')
    (h : ∀ r ∈ db.rows, ∃ c, parseRFC3339 r.date_created = some c ∧ c ≤ L ∧
      (r.completed = true → ∃ k, parseRFC3339 r.date_completed = some k ∧ c ≤ k) ∧
      (r.completed = false → r.date_completed = "")) :
    ∀ r ∈ db.rows, ∃ c, parseRFC3339 r.date_created = some c ∧ c ≤ L' ∧
      (r.completed = true → ∃ k, parseRFC3339 r.date_completed = some k ∧ c ≤ k) ∧
      (r.completed = false → r.date_completed = "") := by
  intro r hr
  obtain ⟨c, h1, h2, h3⟩ := h r hr
  exact ⟨c, h1, le_trans h2 hL, h3⟩

theorem stamps_runOps (ops : List Op) (db : Db) (L : Int)
    (h : ∀ r ∈ db.rows, ∃ c, parseRFC3339 r.date_created = some c ∧ c ≤ L ∧
      (r.completed = true → ∃ k, parseRFC3339 r.date_completed = some k ∧ c ≤ k) ∧
      (r.completed = false → r.date_completed = ""))
    (hr : ∀ t ∈ opTimes ops, t.InRange ∧ L ≤ t.unix)
    (hm : (opTimes ops).Pairwise (fun a b => a.unix ≤ b.unix)) :
    ∃ L', ∀ r ∈ (runOps ops db).rows, ∃ c, parseRFC3339 r.date_created = some c ∧ c ≤ L' ∧
      (r.completed = true → ∃ k, parseRFC3339 r.date_completed = some k ∧ c ≤ k) ∧
      (r.completed = false → r.date_completed = "") := by
  induction ops generalizing db L with
  | nil => exact ⟨L, h⟩
  | cons op ops ih =>
    cases op with
    | add now description =>
      simp only [opTimes, List.mem_cons, forall_eq_or_imp, List.pairwise_cons] at hr hm
      obtain ⟨⟨hin, hL⟩, hrest⟩ := hr
      obtain ⟨hhead, htail⟩ := hm
      apply ih (addTodo none now description db).db now.unix _
        (fun t ht => ⟨(hrest t ht).1, hhead t ht⟩) htail
      rcases addTodo_cases now description db with ⟨_, hdb⟩ | ⟨_, hdb⟩
      · rw [hdb]
        intro r hrow
        rcases List.mem_append.1 hrow with hrow | hrow
        · exact stamps_mono db L now.unix hL h r hrow
        · rw [List.mem_singleton.1 hrow]
          exact ⟨now.unix, parseRFC3339_rfc3339 now hin, le_refl _,
            fun hc => by simp at hc, fun _ => rfl⟩
      · rw [hdb]
        exact stamps_mono db L now.unix hL h
    | complete now todoId =>
      simp only [opTimes, List.mem_cons, forall_eq_or_imp, List.pairwise_cons] at hr hm
      obtain ⟨⟨hin, hL⟩, hrest⟩ := hr
      obtain ⟨hhead, htail⟩ := hm
      apply ih (completeTodo none now todoId db).db now.unix _
        (fun t ht => ⟨(hrest t ht).1, hhead t ht⟩) htail
      rw [completeTodo_db]
      intro r hrow
      obtain ⟨r0, hr0, rfl⟩ := List.mem_map.1 hrow
      obtain ⟨c, h1, h2, h3, h4⟩ := h r0 hr0
      by_cases hid : r0.id = todoId
      · simp only [hid, if_true]
        exact ⟨c, h1, le_trans h2 hL,
          fun _ => ⟨now.unix, parseRFC3339_rfc3339 now hin, le_trans h2 hL⟩,
          fun hc => by simp at hc⟩
      · simp only [hid, if_false]
        exact ⟨c, h1, le_trans h2 hL, h3, h4⟩
    | delete todoId =>
      simp only [opTimes] at hr hm
      apply ih (deleteTodo none todoId db).db L _ hr hm
      rcases deleteTodo_cases todoId db with ⟨_, _, hdb⟩ | ⟨_, _, hdb⟩
      · rw [hdb]
        exact fun r hrow => h r (List.mem_of_mem_filter hrow)
      · rw [hdb]
        exact h

/-! ## The claims -/

/-- C1: after any sequence of add, complete and delete operations on a fresh
database, an id is printed by `showTodo` if and only if it was assigned by a
successful add of the sequence and not removed by a successful delete of the
sequence. -/
theorem listed_ids_eq_added_minus_deleted (ops : List Op) (i : Int) :
    i ∈ printedIds (showTodo none (runOps ops Db.fresh)).out ↔
      i ∈ addedIds ops Db.fresh ∧ i ∉ deletedIds ops Db.fresh := by
  rw [printedIds_showTodo, mem_ids_runOps ops Db.fresh fresh_seqBound i]
  simp [Db.fresh]

/-- C2: in the database reached from a fresh one by a sequence of add,
complete and delete operations, `deleteTodo` on an id that no add of the
sequence assigned, or that a delete of the sequence removed, returns the error
`no todo found with ID = <id>`, prints nothing and leaves the database as it
is; the ids assigned by the adds are strictly increasing, and no add of any
continuation of the sequence assigns an id that a delete has removed. -/
theorem deleteTodo_unknown_id (ops : List Op) (todoId : Int)
    (h : todoId ∉ addedIds ops Db.fresh ∨ todoId ∈ deletedIds ops Db.fresh) :
    deleteTodo none todoId (runOps ops Db.fresh) =
      ⟨some ("no todo found with ID = " ++ toString todoId), runOps ops Db.fresh, []⟩ ∧
    (addedIds ops Db.fresh).Pairwise (fun a b => a < b) ∧
    (∀ later : List Op, ∀ i ∈ deletedIds ops Db.fresh,
      i ∉ addedIds later (runOps ops Db.fresh)) := by
  refine ⟨?_, addedIds_pairwise ops Db.fresh fresh_seqBound, ?_⟩
  · apply deleteTodo_missing
    intro r hr hid
    have hmem : todoId ∈ (runOps ops Db.fresh).rows.map Row.id :=
      List.mem_map.2 ⟨r, hr, hid⟩
    rw [mem_ids_runOps ops Db.fresh fresh_seqBound todoId] at hmem
    simp only [Db.fresh, List.map_nil, List.not_mem_nil, false_or] at hmem
    rcases h with h | h
    · exact h hmem.1
    · exact hmem.2 h
  · intro later i hi hadd
    have h1 := deletedIds_le_seq ops Db.fresh fresh_seqBound i hi
    have h2 := addedIds_gt_seq later (runOps ops Db.fresh)
      (runOps_seqBound ops Db.fresh fresh_seqBound).1 i hadd
    omega

/-- A concrete history: after an add, the delete of id 1 and another add, deleting
id 1 again finds no row and the second todo keeps id 2. -/
theorem deleteTodo_unknown_id_witness :
    deleteTodo none 1 (runOps [.add ⟨0, 0⟩ "a", .delete 1, .add ⟨60, 0⟩ "b"] Db.fresh) =
      ⟨some "no todo found with ID = 1",
        ⟨[⟨2, "b", false, "1970-01-01T00:01:00Z", ""⟩], 2⟩, []⟩ :=
  (deleteTodo_unknown_id [.add ⟨0, 0⟩ "a", .delete 1, .add ⟨60, 0⟩ "b"] 1
    (Or.inr (by decide))).1

/-- C3: a successful `addTodo` has a non-empty description and appends exactly
one row, with the next rowid, the description as given, `completed = false`,
`date_created` the RFC 3339 rendering of the clock reading and an empty
`date_completed`; the rows that were there before keep their places and
contents. -/
theorem addTodo_success_appends_row (ioErr : Option String) (now : Time) (description : String)
    (db : Db) (h : (addTodo ioErr now description db).err = none) :
    description ≠ "" ∧
    (addTodo ioErr now description db).db.rows =
      db.rows ++ [⟨nextId db, description, false, rfc3339 now, ""⟩] ∧
    (addTodo ioErr now description db).db.rows.length = db.rows.length + 1 ∧
    (∀ i (hi : i < db.rows.length),
      (addTodo ioErr now description db).db.rows[i]? = some db.rows[i]) := by
  obtain ⟨rfl, hl, hid⟩ := addTodo_err_none ioErr now description db h
  rw [addTodo_ok now description db hl hid]
  refine ⟨fun hd => hl ((len_eq_zero_iff _).2 hd), rfl, by simp, ?_⟩
  intro i hi
  simp [List.getElem?_append_left hi, hi]

/-- A concrete add on a fresh database: the description keeps its blanks and the
row gets id 1. -/
theorem addTodo_success_appends_row_witness :
    (addTodo none ⟨1730739600, 3600⟩ "  buy milk " Db.fresh).err = none ∧
    "  buy milk " ≠ "" ∧
    (addTodo none ⟨1730739600, 3600⟩ "  buy milk " Db.fresh).db.rows =
      [⟨1, "  buy milk ", false, "2024-11-04T18:00:00+01:00", ""⟩] := by
  have h : (addTodo none ⟨1730739600, 3600⟩ "  buy milk " Db.fresh).err = none := by decide
  have := addTodo_success_appends_row none ⟨1730739600, 3600⟩ "  buy milk " Db.fresh h
  exact ⟨h, this.1, by decide⟩

/-- C4: with a working store `addTodo` returns the error `empty description`
exactly when the description has length 0, that is, is the empty string; in
that case, whatever the store does, the database is returned as it was and
nothing is printed; a description of one or more blanks is not empty and,
when a rowid is left, is added. -/
theorem addTodo_empty_description_iff (now : Time) (description : String) (db : Db) :
    ((addTodo none now description db).err = some "empty description" ↔ len description = 0) ∧
    (len description = 0 ↔ description = "") ∧
    (len description = 0 → ∀ ioErr,
      addTodo ioErr now description db = ⟨some "empty description", db, []⟩) ∧
    (∀ n, 0 < n → nextId db ≤ maxInt64 →
      addTodo none now (String.mk (List.replicate n ' ')) db =
        ⟨none, { rows := db.rows ++
                   [⟨nextId db, String.mk (List.replicate n ' '), false, rfc3339 now, ""⟩],
                 seq := nextId db }, [.println "Todo added successfully!"]⟩) := by
  refine ⟨?_, len_eq_zero_iff _, ?_, ?_⟩
  · constructor
    · intro h
      by_contra hl
      by_cases hid : nextId db > maxInt64
      · simp [addTodo, insert, hl, hid] at h
      · simp [addTodo, insert, hl, hid] at h
    · intro hl
      simp [addTodo, hl]
  · intro hl ioErr
    simp [addTodo, hl]
  · intro n hn hid
    apply addTodo_ok _ _ _ _ hid
    intro h
    have h2 := congrArg String.data ((len_eq_zero_iff _).1 h)
    cases n with
    | zero => omega
    | succ k => simp [List.replicate_succ] at h2

/-- Concrete adds: the empty description is refused even when the store is
broken, and a description of three blanks is added. -/
theorem addTodo_empty_description_iff_witness :
    addTodo (some "disk I/O error") ⟨0, 0⟩ "" ⟨[⟨1, "a", false, "1970-01-01T00:00:00Z", ""⟩], 1⟩ =
      ⟨some "empty description", ⟨[⟨1, "a", false, "1970-01-01T00:00:00Z", ""⟩], 1⟩, []⟩ ∧
    addTodo none ⟨0, 0⟩ "   " Db.fresh =
      ⟨none, ⟨[⟨1, "   ", false, "1970-01-01T00:00:00Z", ""⟩], 1⟩,
        [.println "Todo added successfully!"]⟩ :=
  ⟨(addTodo_empty_description_iff ⟨0, 0⟩ ""
      ⟨[⟨1, "a", false, "1970-01-01T00:00:00Z", ""⟩], 1⟩).2.2.1 (by decide) _,
   (addTodo_empty_description_iff ⟨0, 0⟩ "" Db.fresh).2.2.2 3 (by decide) (by decide)⟩

/-- C5, as stated, fails: the wall clock may be set back between two runs of
the program.  A todo added at 2024-11-04T18:00:00Z and completed when the
clock reads 2024-11-04T17:00:00Z is a completed row whose `date_completed`
is earlier than its `date_created`. -/
theorem i3_fails_when_clock_steps_back :
    ¬ (∀ r ∈ (runOps [.add ⟨1730743200, 0⟩ "a", .complete ⟨1730739600, 0⟩ 1] Db.fresh).rows,
        i3 r = true) := by
  decide

/-- C5, amended: when the clock readings of the operations never decrease
from one operation to the next and each renders with a year 0000-9999 and a
zone offset of whole minutes, (I3) holds for every row of the database
reached from a fresh one: a completed row has a well-formed RFC 3339
`date_completed` that is not earlier than its `date_created`, and a row that
is not completed has an empty `date_completed`. -/
theorem i3_of_monotone_clock (ops : List Op) (hr : ∀ t ∈ opTimes ops, t.InRange)
    (hm : (opTimes ops).Pairwise (fun a b => a.unix ≤ b.unix)) :
    ∀ r ∈ (runOps ops Db.fresh).rows, i3 r = true := by
  obtain ⟨L, hL⟩ : ∃ L : Int, ∀ t ∈ opTimes ops, L ≤ t.unix := by
    cases hops : opTimes ops with
    | nil => exact ⟨0, fun t ht => by simp at ht⟩
    | cons t0 rest =>
      rw [hops] at hm
      refine ⟨t0.unix, fun t ht => ?_⟩
      rcases List.mem_cons.1 ht with rfl | ht
      · exact le_refl _
      · exact (List.pairwise_cons.1 hm).1 t ht
  obtain ⟨L', h⟩ := stamps_runOps ops Db.fresh L (fun r hrow => by simp [Db.fresh] at hrow)
    (fun t ht => ⟨hr t ht, hL t ht⟩) hm
  intro r hrow
  obtain ⟨c, h1, _, h3, h4⟩ := h r hrow
  unfold i3
  cases hc : r.completed with
  | true =>
    obtain ⟨k, hk, hck⟩ := h3 hc
    simp [h1, hk, hck]
  | false =>
    simp [h4 hc]

/-- A concrete history with a clock that does not go back: the todo added at
18:00 in zone +01:00 and completed an hour later in zone -05:00 satisfies (I3). -/
theorem i3_of_monotone_clock_witness :
    (runOps [.add ⟨1730739600, 3600⟩ "a", .complete ⟨1730743200, -18000⟩ 1,
        .add ⟨1730743200, 0⟩ "b"] Db.fresh).rows =
      [⟨1, "a", true, "2024-11-04T18:00:00+01:00", "2024-11-04T13:00:00-05:00"⟩,
       ⟨2, "b", false, "2024-11-04T18:00:00Z", ""⟩] ∧
    i3 ⟨1, "a", true, "2024-11-04T18:00:00+01:00", "2024-11-04T13:00:00-05:00"⟩ = true :=
  ⟨by decide,
   i3_of_monotone_clock [.add ⟨1730739600, 3600⟩ "a", .complete ⟨1730743200, -18000⟩ 1,
    .add ⟨1730743200, 0⟩ "b"] (by decide) (by decide) _ (by decide)⟩

/-- C6: with a working store `completeTodo` succeeds exactly when some row has
the id, completed or not; after a success every row with that id has
`completed = true` and `date_completed` the RFC 3339 rendering of the clock
reading, and such a row is there, so that a second call succeeds too and
leaves the rendering of the second reading; when no row has the id the error
is `no todo found with todoId = <id>`, nothing is printed and the database is
the same. -/
theorem completeTodo_succeeds_iff_found (now : Time) (todoId : Int) (db : Db) :
    ((completeTodo none now todoId db).err = none ↔ ∃ r ∈ db.rows, r.id = todoId) ∧
    ((∃ r ∈ db.rows, r.id = todoId) →
      (∃ r ∈ (completeTodo none now todoId db).db.rows, r.id = todoId) ∧
      (∀ r ∈ (completeTodo none now todoId db).db.rows, r.id = todoId →
        r.completed = true ∧ r.date_completed = rfc3339 now) ∧
      ∀ later : Time,
        (completeTodo none later todoId (completeTodo none now todoId db).db).err = none ∧
        ∀ r ∈ (completeTodo none later todoId (completeTodo none now todoId db).db).db.rows,
          r.id = todoId → r.completed = true ∧ r.date_completed = rfc3339 later) ∧
    ((∀ r ∈ db.rows, r.id ≠ todoId) →
      completeTodo none now todoId db =
        ⟨some ("no todo found with todoId = " ++ toString todoId), db, []⟩) := by
  have key : ∀ (t : Time) (d : Db), (∃ r ∈ d.rows, r.id = todoId) →
      (completeTodo none t todoId d).err = none ∧
      (∃ r ∈ (completeTodo none t todoId d).db.rows, r.id = todoId) ∧
      (∀ r ∈ (completeTodo none t todoId d).db.rows, r.id = todoId →
        r.completed = true ∧ r.date_completed = rfc3339 t) := by
    intro t d hd
    rw [completeTodo_found t todoId d hd]
    refine ⟨rfl, ?_, ?_⟩
    · obtain ⟨r, hr, hid⟩ := hd
      refine ⟨{ r with completed := true, date_completed := rfc3339 t }, ?_, hid⟩
      simp only [List.mem_map]
      exact ⟨r, hr, by simp [hid]⟩
    · intro r hr hid
      simp only [List.mem_map] at hr
      obtain ⟨r0, _, rfl⟩ := hr
      by_cases h0 : r0.id = todoId
      · simp [h0]
      · simp [h0] at hid
  refine ⟨⟨?_, fun h => (key now db h).1⟩, ?_, completeTodo_missing now todoId db⟩
  · intro h
    by_contra hne
    push_neg at hne
    rw [completeTodo_missing now todoId db hne] at h
    simp at h
  · intro h
    obtain ⟨_, h2, h3⟩ := key now db h
    refine ⟨h2, h3, fun later => ?_⟩
    obtain ⟨k1, _, k3⟩ := key later _ h2
    exact ⟨k1, k3⟩

/-- Concrete calls: completing an already completed row succeeds and overwrites
`date_completed`; completing id 7, which no row has, fails and changes nothing. -/
theorem completeTodo_succeeds_iff_found_witness :
    (completeTodo none ⟨86400, 0⟩ 1
        ⟨[⟨1, "a", true, "1970-01-01T00:00:00Z", "1970-01-01T00:00:05Z"⟩], 1⟩).err = none ∧
    (∀ r ∈ (completeTodo none ⟨86400, 0⟩ 1
        ⟨[⟨1, "a", true, "1970-01-01T00:00:00Z", "1970-01-01T00:00:05Z"⟩], 1⟩).db.rows,
      r.id = 1 → r.completed = true ∧ r.date_completed = "1970-01-02T00:00:00Z") ∧
    completeTodo none ⟨86400, 0⟩ 7
        ⟨[⟨1, "a", false, "1970-01-01T00:00:00Z", ""⟩], 1⟩ =
      ⟨some "no todo found with todoId = 7",
        ⟨[⟨1, "a", false, "1970-01-01T00:00:00Z", ""⟩], 1⟩, []⟩ :=
  ⟨(completeTodo_succeeds_iff_found ⟨86400, 0⟩ 1
      ⟨[⟨1, "a", true, "1970-01-01T00:00:00Z", "1970-01-01T00:00:05Z"⟩], 1⟩).1.2
      ⟨_, List.mem_singleton.2 rfl, rfl⟩,
   ((completeTodo_succeeds_iff_found ⟨86400, 0⟩ 1
      ⟨[⟨1, "a", true, "1970-01-01T00:00:00Z", "1970-01-01T00:00:05Z"⟩], 1⟩).2.1
      ⟨_, List.mem_singleton.2 rfl, rfl⟩).2.1,
   (completeTodo_succeeds_iff_found ⟨86400, 0⟩ 7
      ⟨[⟨1, "a", false, "1970-01-01T00:00:00Z", ""⟩], 1⟩).2.2 (by decide)⟩

/-- C7: whatever the store does, `completeTodo` keeps the rows in place and
in number: row by row the id, the description and `date_created` are the
same before and after, a row whose id is not the given one is unchanged, and
the rowid counter is unchanged. -/
theorem completeTodo_frame (ioErr : Option String) (now : Time) (todoId : Int) (db : Db) :
    List.Forall₂ (fun r r' => r'.id = r.id ∧ r'.description = r.description ∧
        r'.date_created = r.date_created ∧ (r.id ≠ todoId → r' = r))
      db.rows (completeTodo ioErr now todoId db).db.rows ∧
    (completeTodo ioErr now todoId db).db.rows.length = db.rows.length ∧
    (completeTodo ioErr now todoId db).db.seq = db.seq := by
  have hrefl : ∀ rows : List Row, List.Forall₂ (fun r r' => r'.id = r.id ∧
      r'.description = r.description ∧ r'.date_created = r.date_created ∧
      (r.id ≠ todoId → r' = r)) rows rows := by
    intro rows
    induction rows with
    | nil => exact List.Forall₂.nil
    | cons r rest ih => exact List.Forall₂.cons ⟨rfl, rfl, rfl, fun _ => rfl⟩ ih
  have hmap : ∀ rows : List Row, List.Forall₂ (fun r r' => r'.id = r.id ∧
      r'.description = r.description ∧ r'.date_created = r.date_created ∧
      (r.id ≠ todoId → r' = r)) rows
      (rows.map (fun r =>
        if r.id = todoId then { r with completed := true, date_completed := rfc3339 now }
        else r)) := by
    intro rows
    induction rows with
    | nil => exact List.Forall₂.nil
    | cons r rest ih =>
      refine List.Forall₂.cons ?_ ih
      by_cases h : r.id = todoId
      · simp [h]
      · simp [h]
  cases ioErr with
  | some e => exact ⟨hrefl _, rfl, rfl⟩
  | none =>
    have hdb : (completeTodo none now todoId db).db = { db with rows := db.rows.map (fun r =>
        if r.id = todoId then { r with completed := true, date_completed := rfc3339 now }
        else r) } := by
      by_cases h : (db.rows.filter (fun r => r.id = todoId)).length = 0
      · simp only [completeTodo, updateCompletion, if_pos h]
      · simp only [completeTodo, updateCompletion, if_neg h]
    rw [hdb]
    exact ⟨hmap _, List.length_map _ _, rfl⟩

/-- C8: when `os.Args` holds the program name and the store works, the exit
status is not 0 exactly when there are a command and a further argument, the
command in lower case is `delete` or `complete` and the argument is not an
integer; the status is then 1 and the database is unchanged.  With an empty
description, an id that no row has, an unknown command or a missing argument
the message is written and the status is 0. -/
theorem main_exit_status (now : Time) (args : List String) (db : Db) (hargs : args ≠ []) :
    ((main none none now args db).exit ≠ 0 ↔
      ∃ a0 a1 a2 rest, args = a0 :: a1 :: a2 :: rest ∧
        (toLower a1 = "delete" ∨ toLower a1 = "complete") ∧ atoi a2 = none) ∧
    (∀ a0 a1 a2 rest, args = a0 :: a1 :: a2 :: rest →
        (toLower a1 = "delete" ∨ toLower a1 = "complete") → atoi a2 = none →
        main none none now args db =
          ⟨1, db, [.println "Database connected!", .fatal "Invalid ID: must be a number!"]⟩) ∧
    (∀ a0 a1 rest, args = a0 :: a1 :: "" :: rest → toLower a1 = "add" →
        main none none now args db =
          ⟨0, db, [.println "Database connected!", .println "empty description"]⟩) ∧
    (∀ a0 a1 a2 rest id, args = a0 :: a1 :: a2 :: rest → atoi a2 = some id →
        (∀ r ∈ db.rows, r.id ≠ id) →
        (toLower a1 = "delete" → main none none now args db =
          ⟨0, db, [.println "Database connected!",
                   .println ("no todo found with ID = " ++ toString id)]⟩) ∧
        (toLower a1 = "complete" → main none none now args db =
          ⟨0, db, [.println "Database connected!",
                   .println ("no todo found with todoId = " ++ toString id)]⟩)) ∧
    (∀ a0 a1 a2 rest, args = a0 :: a1 :: a2 :: rest → toLower a1 ≠ "show" →
        toLower a1 ≠ "add" → toLower a1 ≠ "delete" → toLower a1 ≠ "complete" →
        main none none now args db =
          ⟨0, db, [.println "Database connected!", .println "Invalid command!"] ++ showHelp⟩) ∧
    (∀ a0 a1, args = [a0, a1] → toLower a1 ≠ "show" →
        main none none now args db =
          ⟨0, db, [.println "Database connected!", .println "Insufficient arguments!"] ++
            showHelp⟩) := by
  refine ⟨?_, ?_, ?_, ?_, ?_, ?_⟩
  · match args, hargs with
    | [_], _ => simp [main, createDatabase]
    | [_, a1], _ =>
      by_cases hs : toLower a1 = "show"
      · simp [main, createDatabase, hs, showTodo]
      · simp [main, createDatabase, hs]
    | a0 :: a1 :: a2 :: rest, _ =>
      rw [main_exit_three]
      constructor
      · intro h
        by_cases hc : (toLower a1 = "delete" ∨ toLower a1 = "complete") ∧ atoi a2 = none
        · exact ⟨a0, a1, a2, rest, rfl, hc.1, hc.2⟩
        · rw [if_neg hc] at h
          exact absurd rfl h
      · rintro ⟨b0, b1, b2, brest, heq, hcmd, hp⟩
        simp only [List.cons.injEq] at heq
        obtain ⟨_, rfl, rfl, _⟩ := heq
        rw [if_pos ⟨hcmd, hp⟩]
        decide
  · rintro a0 a1 a2 rest rfl hcmd hp
    rcases hcmd with hd | hc
    · simp [main, createDatabase, hd, hp]
    · simp [main, createDatabase, hc, hp]
  · rintro a0 a1 rest rfl ha
    have h0 : len "" = 0 := (len_eq_zero_iff "").2 rfl
    simp [main, createDatabase, ha, addTodo, h0]
  · rintro a0 a1 a2 rest id rfl hp hrows
    constructor
    · intro hd
      simp [main, createDatabase, hd, hp, deleteTodo_missing id db hrows]
    · intro hc
      simp [main, createDatabase, hc, hp, completeTodo_missing now id db hrows]
  · rintro a0 a1 a2 rest rfl hs ha hd hc
    simp [main, createDatabase, hs, ha, hd, hc]
  · rintro a0 a1 rfl hs
    simp [main, createDatabase, hs]

/-- Concrete runs: `DELETE 1x` and `Complete one` end with status 1 and leave the
database alone; `delete 999` on an empty table prints the error and ends with
status 0. -/
theorem main_exit_status_witness :
    (main none none ⟨0, 0⟩ ["todo", "DELETE", "1x"]
        ⟨[⟨1, "a", false, "1970-01-01T00:00:00Z", ""⟩], 1⟩).exit ≠ 0 ∧
    main none none ⟨0, 0⟩ ["todo", "Complete", "one"]
        ⟨[⟨1, "a", false, "1970-01-01T00:00:00Z", ""⟩], 1⟩ =
      ⟨1, ⟨[⟨1, "a", false, "1970-01-01T00:00:00Z", ""⟩], 1⟩,
        [.println "Database connected!", .fatal "Invalid ID: must be a number!"]⟩ ∧
    main none none ⟨0, 0⟩ ["todo", "delete", "999"] Db.fresh =
      ⟨0, Db.fresh, [.println "Database connected!", .println "no todo found with ID = 999"]⟩ :=
  ⟨(main_exit_status ⟨0, 0⟩ ["todo", "DELETE", "1x"]
      ⟨[⟨1, "a", false, "1970-01-01T00:00:00Z", ""⟩], 1⟩ (by decide)).1.2
      ⟨"todo", "DELETE", "1x", [], rfl, Or.inl (by decide), by decide⟩,
   (main_exit_status ⟨0, 0⟩ ["todo", "Complete", "one"]
      ⟨[⟨1, "a", false, "1970-01-01T00:00:00Z", ""⟩], 1⟩ (by decide)).2.1
      "todo" "Complete" "one" [] rfl (Or.inr (by decide)) (by decide),
   ((main_exit_status ⟨0, 0⟩ ["todo", "delete", "999"] Db.fresh (by decide)).2.2.2.1
      "todo" "delete" "999" [] 999 rfl (by decide) (by decide)).1 (by decide)⟩

/-- C9: on a working store `showTodo` returns no error, leaves the database
as it is and writes, in this order, the header line, a line of exactly 59
dashes, for each row in scan order the row line followed by an empty line,
and then `No Todos Found!` when there is no row; the status of a row line is
`✅` exactly when the row is completed and `❌` otherwise, the row line reads
`id | description | status | date_created | date_completed`, and
`No Todos Found!` is written if and only if the table has no row. -/
theorem showTodo_output (db : Db) :
    showTodo none db =
      ⟨none, db,
        [Out.println "ID | DESCRIPTION | COMPLETED | DATE CREATED | DATE COMPLETED",
         Out.println (String.mk (List.replicate 59 '-'))] ++
        db.rows.flatMap (fun r => [Out.printRow r.id r.description
          (if r.completed then "✅" else "❌") r.date_created r.date_completed, Out.println ""]) ++
        (if db.rows = [] then [Out.println "No Todos Found!"] else [])⟩ ∧
    (∀ (id : Int) (description status date_created date_completed : String),
      (Out.printRow id description status date_created date_completed).render =
        toString id ++ " | " ++ description ++ " | " ++ status ++ " | " ++ date_created ++
          " | " ++ date_completed ++ "\n") ∧
    (∀ s : String, (Out.println s).render = s ++ "\n") ∧
    (Out.println "No Todos Found!" ∈ (showTodo none db).out ↔ db.rows = []) := by
  refine ⟨?_, fun _ _ _ _ _ => rfl, fun _ => rfl, ?_⟩
  · rw [showTodo_eq]
    rfl
  · rw [showTodo_eq]
    cases h : db.rows with
    | nil => simp
    | cons r rest => simp [List.mem_flatMap]

set_option maxRecDepth 1000000 in
/-- C10, as stated, fails: the text written when the program runs without
arguments on a fresh database does not contain the help text of the
specification. -/
theorem help_not_spec_text :
    ¬ (specHelpText.data <:+: (stdout (main none none ⟨0, 0⟩ ["todo"] Db.fresh).out).data) := by
  decide

/-- C10, amended: run with no argument and a working store, the program
writes `Database connected!`, the eight help lines, of which the
`complete id` line holds a blank, two tabs and two blanks before the dash, and
an empty line; it ends with status 0 and leaves the database, hence an empty
table of a fresh database, as it is. -/
theorem main_no_arguments (opErr : Option String) (now : Time) (prog : String) (db : Db) :
    main none opErr now [prog] db =
      ⟨0, db,
        [.println "Database connected!",
         .println "Todo CLI Application",
         .println "-------------------",
         .println "Commands:",
         .println "  add \"description\"       - Add a new todo item",
         .println "  complete id \t\t  - Mark a todo as completed",
         .println "  delete id               - Delete a todo item",
         .println "  show                    - Display all todos",
         .println "  help                    - Show this help message",
         .println ""]⟩ ∧
    (main none opErr now [prog] Db.fresh).db.rows = [] := by
  exact ⟨rfl, rfl⟩

end TodoCLI
